import Mathlib

/-!
Shallow embedding of the campaigns persistence store
(`enterprise/internal/campaigns/store.go`): the domain row types, the job
claim queue (`ProcessPendingChangesetJobs` / `getPendingChangesetJobQuery`),
the batch upsert engine (`CreateChangesets`, `UpsertChangesetEvents`), the
advisory lock helper (`TryAcquireAdvisoryLock` / `lockQuery`), the campaign
status aggregator (`queryBackgroundProcessStatus`), campaign writes
(`createCampaignQuery` / `updateCampaignQuery` / `jsonSetColumn`) and the
paginated List family.

Timestamps are modelled as `Nat` (microseconds); `0` plays the role of Go's
zero `time.Time`, matching the `t.IsZero()` / `nullTimeColumn` checks in the
source.  SQL tables are modelled as Lean lists of rows together with the
next value of their id sequence; a table list is kept in ascending id order
exactly when the corresponding SQL reads it with `ORDER BY id ASC`.
-/

namespace Campaigns

/-- Time in microseconds; `0` is Go's zero time (`time.Time.IsZero`). -/
abbrev Time := Nat

/-! ## Row types (mirroring the Go structs scanned from each table) -/

/-- A row of `changeset_jobs`, mirroring `campaigns.ChangesetJob`.
`changesetID = 0`, `startedAt = 0`, `finishedAt = 0` stand for the Go zero
values, which the store writes as SQL NULL (`nullInt64Column` /
`nullTimeColumn`); the claim query's `started_at IS NULL` is therefore
`startedAt = 0`. -/
structure ChangesetJob where
  id : Nat
  campaignID : Nat
  patchID : Nat
  changesetID : Nat
  branch : String
  error : String
  startedAt : Time
  finishedAt : Time
  createdAt : Time
  updatedAt : Time
  deriving DecidableEq, Repr

/-- A row of `campaigns`, mirroring `campaigns.Campaign`.  `patchSetID = 0`
is stored as NULL (`nullInt64Column`), so `patch_set_id IS NOT NULL` is
`patchSetID ≠ 0`. -/
structure Campaign where
  id : Nat
  name : String
  description : String
  branch : String
  authorID : Nat
  namespaceUserID : Nat
  namespaceOrgID : Nat
  createdAt : Time
  updatedAt : Time
  changesetIDs : List Nat
  patchSetID : Nat
  closedAt : Time
  deriving DecidableEq, Repr

/-- A row of `changesets`, mirroring `campaigns.Changeset` through the
column list of `createChangesetsQueryFmtstr`.  The polymorphic `metadata`
jsonb blob is carried as an opaque string. -/
structure Changeset where
  id : Nat
  repoID : Nat
  createdAt : Time
  updatedAt : Time
  metadata : String
  campaignIDs : List Nat
  externalID : String
  externalServiceType : String
  externalBranch : String
  externalDeletedAt : Time
  externalUpdatedAt : Time
  externalState : String
  externalReviewState : String
  externalCheckState : String
  deriving DecidableEq, Repr

/-- A row of `changeset_events`, mirroring `campaigns.ChangesetEvent`. -/
structure ChangesetEvent where
  id : Nat
  changesetID : Nat
  kind : String
  key : String
  createdAt : Time
  updatedAt : Time
  metadata : String
  deriving DecidableEq, Repr

/-- A row of `patch_sets`, mirroring `campaigns.PatchSet`. -/
structure PatchSet where
  id : Nat
  createdAt : Time
  updatedAt : Time
  userID : Nat
  deriving DecidableEq, Repr

/-- A row of `patches`, mirroring `campaigns.Patch`. -/
structure Patch where
  id : Nat
  patchSetID : Nat
  repoID : Nat
  rev : String
  baseRef : String
  diff : String
  createdAt : Time
  updatedAt : Time
  deriving DecidableEq, Repr

/-! ## Job claim queue

`getPendingChangesetJobQuery` is a single atomic statement:

    UPDATE changeset_jobs j SET started_at = now() WHERE id = (
      SELECT j.id FROM changeset_jobs j
      JOIN campaigns c ON c.id = j.campaign_id
      WHERE j.started_at IS NULL AND c.patch_set_id IS NOT NULL
      ORDER BY j.id ASC
      FOR UPDATE SKIP LOCKED LIMIT 1
    ) RETURNING j.*

The database state carries, besides the two tables, the set of row locks
(`FOR UPDATE`) held by in-flight transactions, so that `SKIP LOCKED` can be
modelled: a row claimed by an uncommitted transaction is locked and hence
skipped by every other caller. -/

/-- Database state seen by the job claim queue: the `campaigns` and
`changeset_jobs` tables plus the `FOR UPDATE` row locks currently held,
as pairs `(job id, transaction id)`. -/
structure StoreDB where
  campaigns : List Campaign
  changesetJobs : List ChangesetJob
  jobLocks : List (Nat × Nat)
  deriving DecidableEq, Repr

/-- The transaction (if any) holding a `FOR UPDATE` lock on job `jid`. -/
def lockOf (locks : List (Nat × Nat)) (jid : Nat) : Option Nat :=
  (locks.find? (fun l => l.1 = jid)).map (·.2)

/-- The join `JOIN campaigns c ON c.id = j.campaign_id ... AND c.patch_set_id IS NOT
NULL`: the owning campaign exists and has a patch set attached. -/
def campaignHasPatchSet (cs : List Campaign) (cid : Nat) : Bool :=
  match cs.find? (fun c => c.id = cid) with
  | some c => c.patchSetID ≠ 0
  | none => false

/-- The `WHERE` predicate of the claim statement (before `SKIP LOCKED`):
`j.started_at IS NULL AND c.patch_set_id IS NOT NULL`. -/
def jobPendingIn (cs : List Campaign) (j : ChangesetJob) : Bool :=
  j.startedAt = 0 && campaignHasPatchSet cs j.campaignID

/-- The stamp `SET started_at = now()`. -/
def stampJob (now : Time) (j : ChangesetJob) : ChangesetJob :=
  { j with startedAt := now }

/-- One atomic execution of `getPendingChangesetJobQuery` by transaction
`tx`: select the minimum-id job satisfying the pending predicate that is
not row-locked by another transaction (`ORDER BY j.id ASC FOR UPDATE SKIP
LOCKED LIMIT 1`), stamp its `started_at` and take its row lock, returning
the stamped row.  Returns `none` ("no work") when no row qualifies. -/
def claimFor (tx : Nat) (now : Time) (db : StoreDB) :
    Option ChangesetJob × StoreDB :=
  match (db.changesetJobs.filter
      (fun j => jobPendingIn db.campaigns j && (lockOf db.jobLocks j.id).isNone)).argmin
      (·.id) with
  | none => (none, db)
  | some j =>
    (some (stampJob now j),
      { db with
        changesetJobs :=
          db.changesetJobs.map (fun r => if r.id = j.id then stampJob now r else r)
        jobLocks := (j.id, tx) :: db.jobLocks })

/-- The `COMMIT` of transaction `tx`: its row locks are released; its writes
(the `started_at` stamp) remain. -/
def commitFor (tx : Nat) (db : StoreDB) : StoreDB :=
  { db with jobLocks := db.jobLocks.filter (fun l => l.2 ≠ tx) }

/-- Model of `ProcessPendingChangesetJobs`: open a transaction, run the claim
statement; on no row, return `didRun = false` with no error (the deferred
`Done` commits the empty transaction); on a claimed row, run the callback
inside the transaction; a callback error rolls the whole transaction back
(reverting the `started_at` stamp and all callback writes, per `Done`),
returning `didRun = true` together with the callback's error. -/
def ProcessPendingChangesetJobs (now : Time) (db : StoreDB)
    (process : ChangesetJob → StoreDB → Except String StoreDB) :
    Bool × Option String × StoreDB :=
  match claimFor 0 now db with
  | (none, _) => (false, none, db)
  | (some job, db1) =>
    match process job db1 with
    | Except.ok db2 => (true, none, commitFor 0 db2)
    | Except.error e => (true, some e, db)

/-- An atomic database event in a race of concurrent callers: one caller's
execution of the claim statement, or one caller's transaction commit.
Because the claim is a single atomic statement and `SKIP LOCKED` never
blocks, every concurrent schedule of N callers is an interleaving of these
atomic events. -/
inductive TxEvent
  | claim (tx : Nat)
  | commit (tx : Nat)
  deriving DecidableEq, Repr

/-- Run a schedule of atomic events, collecting each claim statement's
result in schedule order. -/
def runSchedule (now : Time) (db : StoreDB) :
    List TxEvent → StoreDB × List (Option ChangesetJob)
  | [] => (db, [])
  | TxEvent.claim tx :: es =>
    let r := claimFor tx now db
    let rest := runSchedule now r.2 es
    (rest.1, r.1 :: rest.2)
  | TxEvent.commit tx :: es => runSchedule now (commitFor tx db) es

/-- Number of claim statements in a schedule. -/
def countClaims (sched : List TxEvent) : Nat :=
  sched.countP (fun e => match e with | TxEvent.claim _ => true | _ => false)

/-! ## Batch upsert engine: `CreateChangesets`

`createChangesetsQueryFmtstr` expands the serialized batch
(`WITH ORDINALITY`), inserts it with

    ON CONFLICT ON CONSTRAINT changesets_repo_external_id_unique DO NOTHING
    RETURNING changesets.*

into CTE `changed`, and recombines

    FROM changed
    RIGHT JOIN batch   ON (repo_id, external_id)
    LEFT JOIN changesets existing ON (repo_id, external_id)
    ORDER BY batch.ordinality

so every input row yields one output row, in input order: the freshly
inserted row when the insert succeeded, otherwise (`COALESCE`) the
pre-existing row — the outer reference to `changesets` sees the snapshot
taken at statement start.  The table's id column is a sequence, modelled by
`nextID`. -/

/-- The `changesets` table: rows plus the id sequence. -/
structure ChangesetTable where
  rows : List Changeset
  nextID : Nat
  deriving DecidableEq, Repr

/-- The natural key of constraint `changesets_repo_external_id_unique`. -/
def csKey (c : Changeset) : Nat × String := (c.repoID, c.externalID)

/-- Row of the table matching key `k`, if any (the table keeps the unique
constraint, so at most one row matches). -/
def findByKey (rows : List Changeset) (k : Nat × String) : Option Changeset :=
  rows.find? (fun r => csKey r = k)

/-- The body of the stamping loop of `createChangesetsQuery`: `CreatedAt`
defaults to `now()` (the sentinel), `UpdatedAt` defaults to `CreatedAt`. -/
def stampChangeset (now : Time) (c : Changeset) : Changeset :=
  let c1 := if c.createdAt = 0 then { c with createdAt := now } else c
  if c1.updatedAt = 0 then { c1 with updatedAt := c1.createdAt } else c1

/-- The stamping loop of `createChangesetsQuery` over the batch. -/
def stampChangesets (now : Time) (cs : List Changeset) : List Changeset :=
  cs.map (stampChangeset now)

/-- The insert-and-recombine statement: `orig` is the statement-start
snapshot of the table (what `existing` joins against), the second argument
the table as the inserts progress (conflicts are checked against already
inserted batch rows too).  Returns the output rows in batch order and the
final table. -/
def runUpsert (orig : List Changeset) (t : ChangesetTable) :
    List Changeset → List Changeset × ChangesetTable
  | [] => ([], t)
  | c :: cs =>
    match findByKey t.rows (csKey c) with
    | some e =>
      let rest := runUpsert orig t cs
      (e :: rest.1, rest.2)
    | none =>
      let fresh := { c with id := t.nextID }
      let rest := runUpsert orig { rows := t.rows ++ [fresh], nextID := t.nextID + 1 } cs
      (fresh :: rest.1, rest.2)

/-- Result of `CreateChangesets`: the in-memory objects after the scan-back
loop overwrote them with the returned rows, the table afterwards, and the
ids collected into the `AlreadyExistError` (empty when no row pre-existed,
in which case the call returns no error). -/
structure CreateChangesetsResult where
  updated : List Changeset
  table : ChangesetTable
  existIDs : List Nat
  deriving DecidableEq, Repr

/-- Model of `CreateChangesets`: stamp the batch (the `created_at` sentinel), run
the single upsert statement, scan every returned row back over the input
object at the same position, and report as already existing exactly the
positions whose scanned `CreatedAt` differs from the sentinel it was sent
with. -/
def CreateChangesets (now : Time) (t : ChangesetTable) (cs : List Changeset) :
    CreateChangesetsResult :=
  let stamped := stampChangesets now cs
  let r := runUpsert t.rows t stamped
  let exist := ((stamped.zip r.1).filter
      (fun p => p.2.createdAt ≠ p.1.createdAt)).map (fun p => p.2.id)
  { updated := r.1, table := r.2, existIDs := exist }

/-- The `AlreadyExistError` value returned by `CreateChangesets`, `none`
when every row was freshly inserted. -/
def alreadyExistResult (r : CreateChangesetsResult) : Option (List Nat) :=
  if r.existIDs = [] then none else some r.existIDs

/-! ## Batch upsert engine: `UpsertChangesetEvents`

`upsertChangesetEventsQueryFmtstr` inserts the batch with

    ON CONFLICT ON CONSTRAINT changeset_events_changeset_id_kind_key_unique
    DO UPDATE SET metadata = excluded.metadata, updated_at = excluded.updated_at
    RETURNING changeset_events.*

and returns the affected rows in batch order (join on the key triple,
`ORDER BY batch.ordinality`). -/

/-- The `changeset_events` table. -/
structure ChangesetEventTable where
  rows : List ChangesetEvent
  nextID : Nat
  deriving DecidableEq, Repr

/-- Key of constraint `changeset_events_changeset_id_kind_key_unique`. -/
def ceKey (e : ChangesetEvent) : Nat × String × String :=
  (e.changesetID, e.kind, e.key)

/-- Row of the events table matching key triple `k`, if any. -/
def findEvent (rows : List ChangesetEvent) (k : Nat × String × String) :
    Option ChangesetEvent :=
  rows.find? (fun r => ceKey r = k)

/-- The body of the stamping loop of `upsertChangesetEventsQuery`:
`CreatedAt` defaults to `now()`; `UpdatedAt` is reset to `now()` unless it
is strictly after `CreatedAt` (`!e.UpdatedAt.After(e.CreatedAt)`). -/
def stampEvent (now : Time) (e : ChangesetEvent) : ChangesetEvent :=
  let e1 := if e.createdAt = 0 then { e with createdAt := now } else e
  if ¬ e1.createdAt < e1.updatedAt then { e1 with updatedAt := now } else e1

/-- The stamping loop of `upsertChangesetEventsQuery` over the batch. -/
def stampChangesetEvents (now : Time) (es : List ChangesetEvent) :
    List ChangesetEvent :=
  es.map (stampEvent now)

/-- The insert-or-update statement on events: a conflicting row keeps its
`id`, key triple and `created_at` and takes the batch row's `metadata` and
`updated_at` (`excluded.*`); a fresh row is inserted with the next sequence
id.  Outputs are the affected rows in batch order. -/
def runUpsertEvents (t : ChangesetEventTable) :
    List ChangesetEvent → List ChangesetEvent × ChangesetEventTable
  | [] => ([], t)
  | e :: es =>
    match findEvent t.rows (ceKey e) with
    | some old =>
      let upd := { old with metadata := e.metadata, updatedAt := e.updatedAt }
      let rest := runUpsertEvents
        { t with rows := t.rows.map (fun r => if ceKey r = ceKey e then upd else r) } es
      (upd :: rest.1, rest.2)
    | none =>
      let fresh := { e with id := t.nextID }
      let rest := runUpsertEvents
        { rows := t.rows ++ [fresh], nextID := t.nextID + 1 } es
      (fresh :: rest.1, rest.2)

/-- Result of `UpsertChangesetEvents`: scanned-back objects and table. -/
structure UpsertEventsResult where
  updated : List ChangesetEvent
  table : ChangesetEventTable
  deriving DecidableEq, Repr

/-- Model of `UpsertChangesetEvents`: stamp the batch, run the single upsert
statement, scan the returned rows back over the inputs in order. -/
def UpsertChangesetEvents (now : Time) (t : ChangesetEventTable)
    (es : List ChangesetEvent) : UpsertEventsResult :=
  let stamped := stampChangesetEvents now es
  let r := runUpsertEvents t stamped
  { updated := r.1, table := r.2 }

/-! ## Status aggregator: `GetCampaignStatus` -/

/-- The enum `campaigns.BackgroundProcessState`. -/
inductive BackgroundProcessState
  | processing
  | errored
  | completed
  | canceled
  deriving DecidableEq, Repr

/-- The struct `campaigns.BackgroundProcessStatus` as scanned by
`scanBackgroundProcessStatus` from `getCampaignStatusQueryFmtstr`. -/
structure BackgroundProcessStatus where
  canceled : Bool
  total : Nat
  pending : Nat
  completed : Nat
  processErrors : List String
  processState : BackgroundProcessState
  deriving DecidableEq, Repr

/-- The switch in `queryBackgroundProcessStatus` that derives the state
from the scanned counts (`ProcessState` is first defaulted to
`Completed`). -/
def deriveProcessState (s : BackgroundProcessStatus) : BackgroundProcessState :=
  if s.canceled then BackgroundProcessState.canceled
  else if 0 < s.pending then BackgroundProcessState.processing
  else if s.completed = s.total ∧ s.processErrors = [] then
    BackgroundProcessState.completed
  else if s.completed = s.total ∧ s.processErrors ≠ [] then
    BackgroundProcessState.errored
  else BackgroundProcessState.completed

/-- Model of `GetCampaignStatus`: aggregate over the campaign's `changeset_jobs`
rows exactly as `getCampaignStatusQueryFmtstr` does — `canceled` is the
constant `false`, `total = COUNT(*)`, `pending = COUNT(*) FILTER (WHERE
finished_at IS NULL)`, `completed = COUNT(*) FILTER (WHERE finished_at IS
NOT NULL)`, `errors = array_agg(error) FILTER (WHERE error != '')` — then
derive the process state. -/
def GetCampaignStatus (db : StoreDB) (campaignID : Nat) :
    BackgroundProcessStatus :=
  let jobs := db.changesetJobs.filter (fun j => j.campaignID = campaignID)
  let s0 : BackgroundProcessStatus :=
    { canceled := false
      total := jobs.length
      pending := (jobs.filter (fun j => j.finishedAt = 0)).length
      completed := (jobs.filter (fun j => j.finishedAt ≠ 0)).length
      processErrors := (jobs.filter (fun j => j.error ≠ "")).map (·.error)
      processState := BackgroundProcessState.completed }
  { s0 with processState := deriveProcessState s0 }

/-! ## Paginated List family

Every `list*Query` builder replaces a zero limit by `defaultListLimit`,
then requests one extra row (`opts.Limit++`) with `id >= cursor ORDER BY id
ASC LIMIT …`; back in the `List*` method, when exactly `limit+1` rows come
back the last row's id becomes the next cursor and the row is trimmed from
the page, otherwise next stays zero.  Each table is passed as its
`ORDER BY id ASC` row list. -/

/-- The constant `defaultListLimit`. -/
def defaultListLimit : Nat := 50

/-- Model of `ListChangesets` (with `listChangesetsQuery`). -/
def ListChangesets (rows : List Changeset) (cursor limit : Nat) :
    List Changeset × Nat :=
  let lim := (if limit = 0 then defaultListLimit else limit) + 1
  let cs := (rows.filter (fun c => cursor ≤ c.id)).take lim
  if lim ≠ 0 ∧ cs.length = lim then
    (cs.dropLast, ((cs.getLast?).map (·.id)).getD 0)
  else (cs, 0)

/-- Model of `ListChangesetEvents` (with `listChangesetEventsQuery`). -/
def ListChangesetEvents (rows : List ChangesetEvent) (cursor limit : Nat) :
    List ChangesetEvent × Nat :=
  let lim := (if limit = 0 then defaultListLimit else limit) + 1
  let cs := (rows.filter (fun c => cursor ≤ c.id)).take lim
  if lim ≠ 0 ∧ cs.length = lim then
    (cs.dropLast, ((cs.getLast?).map (·.id)).getD 0)
  else (cs, 0)

/-- Model of `ListCampaigns` (with `listCampaignsQuery`). -/
def ListCampaigns (rows : List Campaign) (cursor limit : Nat) :
    List Campaign × Nat :=
  let lim := (if limit = 0 then defaultListLimit else limit) + 1
  let cs := (rows.filter (fun c => cursor ≤ c.id)).take lim
  if lim ≠ 0 ∧ cs.length = lim then
    (cs.dropLast, ((cs.getLast?).map (·.id)).getD 0)
  else (cs, 0)

/-- Model of `ListPatchSets` (with `listPatchSetsQuery`). -/
def ListPatchSets (rows : List PatchSet) (cursor limit : Nat) :
    List PatchSet × Nat :=
  let lim := (if limit = 0 then defaultListLimit else limit) + 1
  let cs := (rows.filter (fun c => cursor ≤ c.id)).take lim
  if lim ≠ 0 ∧ cs.length = lim then
    (cs.dropLast, ((cs.getLast?).map (·.id)).getD 0)
  else (cs, 0)

/-- Model of `ListPatches` (with `listPatchesQuery`). -/
def ListPatches (rows : List Patch) (cursor limit : Nat) :
    List Patch × Nat :=
  let lim := (if limit = 0 then defaultListLimit else limit) + 1
  let cs := (rows.filter (fun c => cursor ≤ c.id)).take lim
  if lim ≠ 0 ∧ cs.length = lim then
    (cs.dropLast, ((cs.getLast?).map (·.id)).getD 0)
  else (cs, 0)

/-- Model of `ListChangesetJobs` (with `listChangesetJobsQuery`). -/
def ListChangesetJobs (rows : List ChangesetJob) (cursor limit : Nat) :
    List ChangesetJob × Nat :=
  let lim := (if limit = 0 then defaultListLimit else limit) + 1
  let cs := (rows.filter (fun c => cursor ≤ c.id)).take lim
  if lim ≠ 0 ∧ cs.length = lim then
    (cs.dropLast, ((cs.getLast?).map (·.id)).getD 0)
  else (cs, 0)

/-! ## Advisory locks: `TryAcquireAdvisoryLock` -/

/-- FNV-1 32-bit offset basis (`fnv1.Init32`). -/
def fnv1Init32 : Nat := 2166136261

/-- FNV-1 32-bit prime (`fnv1.Prime32`). -/
def fnv1Prime32 : Nat := 16777619

/-- Model of `fnv1.HashString32`: FNV-1 (multiply then xor) over the key's bytes,
in 32-bit arithmetic.  The store's keys are ASCII, where UTF-8 bytes and
code points coincide, so the hash is computed over the characters. -/
def fnv1HashString32 (s : String) : Nat :=
  s.data.foldl (fun h c => ((h * fnv1Prime32) % 2 ^ 32) ^^^ c.toNat) fnv1Init32

/-- Go's `int32(u)` reinterpretation of a 32-bit unsigned value. -/
def toInt32 (n : Nat) : Int :=
  if n % 2 ^ 32 < 2 ^ 31 then ((n % 2 ^ 32 : Nat) : Int)
  else ((n % 2 ^ 32 : Nat) : Int) - 2 ^ 32

/-- The constant `lockNamespace = int32(fnv1.HashString32("campaigns"))`. -/
def lockNamespace : Int := toInt32 (fnv1HashString32 "campaigns")

/-- The pair of arguments `lockQuery` passes to
`pg_try_advisory_xact_lock(%s, %s)`. -/
def lockQueryArgs (key : String) : Int × Int :=
  (lockNamespace, toInt32 (fnv1HashString32 key))

/-- The error `NoTransactionError`. -/
def NoTransactionError : String := "Not in a transaction"

/-- Model of `TryAcquireAdvisoryLock`: outside a transaction it fails immediately
with `NoTransactionError` and issues no query; inside one it issues exactly
the non-blocking `pg_try_advisory_xact_lock(lockNamespace, int32(fnv1(key)))`
query and returns the database's boolean answer (`tryLock` stands for the
database's response to that query).  The returned list records the queries
issued. -/
def TryAcquireAdvisoryLock (inTx : Bool) (tryLock : Int → Int → Bool)
    (key : String) : (Bool × Option String) × List (Int × Int) :=
  if ¬ inTx then ((false, some NoTransactionError), [])
  else
    let args := lockQueryArgs key
    ((tryLock args.1 args.2, none), [args])

/-! ## Campaign writes: `jsonSetColumn`, create and update -/

/-- Model of `jsonSetColumn`: the Go code loads the ids into a `map[int64]*struct{}`
and marshals the map, so the stored jsonb object's keys are exactly the
distinct ids of the input (a jsonb object's keys are a set; their order is
not observable).  Modelled as the duplicate-free list of the input's
elements. -/
def jsonSetColumn (ids : List Nat) : List Nat := ids.dedup

/-- The `campaigns` table. -/
structure CampaignTable where
  rows : List Campaign
  nextID : Nat
  deriving DecidableEq, Repr

/-- Model of `CreateCampaign` (with `createCampaignQuery`): default the timestamps,
serialize `ChangesetIDs` through `jsonSetColumn`, insert the row and scan
it back. -/
def CreateCampaign (now : Time) (t : CampaignTable) (c : Campaign) :
    Campaign × CampaignTable :=
  let c1 := if c.createdAt = 0 then { c with createdAt := now } else c
  let c2 := if c1.updatedAt = 0 then { c1 with updatedAt := c1.createdAt } else c1
  let row := { c2 with id := t.nextID, changesetIDs := jsonSetColumn c2.changesetIDs }
  (row, { rows := t.rows ++ [row], nextID := t.nextID + 1 })

/-- Model of `UpdateCampaign` (with `updateCampaignQuery`): stamp `UpdatedAt`,
serialize `ChangesetIDs` through `jsonSetColumn`, and overwrite every
column of the row with the campaign's id except `id` and `created_at`
(absent from the `SET` list); the updated row is scanned back. -/
def UpdateCampaign (now : Time) (t : CampaignTable) (c : Campaign) :
    Campaign × CampaignTable :=
  let c1 := { c with updatedAt := now }
  let row := { c1 with changesetIDs := jsonSetColumn c1.changesetIDs }
  let write := fun (r : Campaign) =>
    if r.id = c.id then { row with id := r.id, createdAt := r.createdAt } else r
  ({ row with createdAt :=
      match t.rows.find? (fun r => r.id = c.id) with
      | some r => r.createdAt
      | none => row.createdAt },
    { t with rows := t.rows.map write })

/-! ## Example inputs used to instantiate the theorems -/

/-- A `changeset_jobs` row for the status examples: `fin` is `finished_at`
(`0` = NULL), `err` the error column. -/
def statusJob (id fin : Nat) (err : String) : ChangesetJob :=
  { id := id, campaignID := 1, patchID := id, changesetID := 0, branch := ""
    error := err, startedAt := 0, finishedAt := fin, createdAt := 1, updatedAt := 1 }

/-- Campaign 1 with five jobs: one pending, four finished, two errored. -/
def statusDBProcessing : StoreDB :=
  { campaigns := [], jobLocks := []
    changesetJobs :=
      [statusJob 1 0 "", statusJob 2 2 "", statusJob 3 2 "",
        statusJob 4 2 "x", statusJob 5 2 "y"] }

/-- Campaign 1 with five jobs: all finished, two errored. -/
def statusDBErrored : StoreDB :=
  { campaigns := [], jobLocks := []
    changesetJobs :=
      [statusJob 1 2 "", statusJob 2 2 "", statusJob 3 2 "",
        statusJob 4 2 "x", statusJob 5 2 "y"] }

/-- Campaign 1 with three jobs: all finished, none errored. -/
def statusDBCompleted : StoreDB :=
  { campaigns := [], jobLocks := []
    changesetJobs := [statusJob 1 2 "", statusJob 2 2 "", statusJob 3 2 ""] }

/-! ## C5: status aggregation -/

/-- Claim C5: `GetCampaignStatus` derives the campaign state from its job
counts with precedence Canceled > Processing (`pending > 0`) > Completed
(`completed = total`, no errors) > Errored (`completed = total`, errors
present); concretely, five jobs with one pending, four completed and two
errors give Processing; five jobs all completed with two errors give
Errored; all jobs completed with no errors give Completed. -/
theorem getCampaignStatus_precedence (s : BackgroundProcessStatus) :
    (s.canceled = true → deriveProcessState s = BackgroundProcessState.canceled) ∧
    (s.canceled = false → 0 < s.pending →
      deriveProcessState s = BackgroundProcessState.processing) ∧
    (s.canceled = false → s.pending = 0 → s.completed = s.total →
      s.processErrors = [] →
      deriveProcessState s = BackgroundProcessState.completed) ∧
    (s.canceled = false → s.pending = 0 → s.completed = s.total →
      s.processErrors ≠ [] →
      deriveProcessState s = BackgroundProcessState.errored) ∧
    ((GetCampaignStatus statusDBProcessing 1).total = 5 ∧
      (GetCampaignStatus statusDBProcessing 1).pending = 1 ∧
      (GetCampaignStatus statusDBProcessing 1).completed = 4 ∧
      (GetCampaignStatus statusDBProcessing 1).processErrors.length = 2 ∧
      (GetCampaignStatus statusDBProcessing 1).processState =
        BackgroundProcessState.processing) ∧
    ((GetCampaignStatus statusDBErrored 1).total = 5 ∧
      (GetCampaignStatus statusDBErrored 1).pending = 0 ∧
      (GetCampaignStatus statusDBErrored 1).completed = 5 ∧
      (GetCampaignStatus statusDBErrored 1).processErrors.length = 2 ∧
      (GetCampaignStatus statusDBErrored 1).processState =
        BackgroundProcessState.errored) ∧
    ((GetCampaignStatus statusDBCompleted 1).pending = 0 ∧
      (GetCampaignStatus statusDBCompleted 1).processErrors = [] ∧
      (GetCampaignStatus statusDBCompleted 1).completed =
        (GetCampaignStatus statusDBCompleted 1).total ∧
      (GetCampaignStatus statusDBCompleted 1).processState =
        BackgroundProcessState.completed) := by
  refine ⟨?_, ?_, ?_, ?_, by decide, by decide, by decide⟩
  · intro h1; simp [deriveProcessState, h1]
  · intro h1 h2; simp [deriveProcessState, h1, h2]
  · intro h1 h2 h3 h4; simp [deriveProcessState, h1, h2, h3, h4]
  · intro h1 h2 h3 h4; simp [deriveProcessState, h1, h2, h3, h4]

/-- Witness for C5 at a concrete canceled status. -/
theorem getCampaignStatus_precedence_witness :
    deriveProcessState
      { canceled := true, total := 0, pending := 0, completed := 0
        processErrors := [], processState := BackgroundProcessState.completed } =
      BackgroundProcessState.canceled :=
  (getCampaignStatus_precedence _).1 rfl

/-! ## C8: advisory locks -/

/-- Claim C8: `TryAcquireAdvisoryLock` on a store whose connection is not a
transaction returns `false` with `NoTransactionError` without issuing any
query; inside a transaction it issues exactly one non-blocking
`pg_try_advisory_xact_lock` call whose arguments are the fixed namespace
hash of `"campaigns"` and the 32-bit FNV-1 hash of the key, and returns the
database's boolean answer. -/
theorem tryAcquireAdvisoryLock_spec (inTx : Bool) (tryLock : Int → Int → Bool)
    (key : String) :
    (inTx = false →
      TryAcquireAdvisoryLock inTx tryLock key =
        ((false, some NoTransactionError), [])) ∧
    (inTx = true →
      TryAcquireAdvisoryLock inTx tryLock key =
        ((tryLock lockNamespace (toInt32 (fnv1HashString32 key)), none),
          [(lockNamespace, toInt32 (fnv1HashString32 key))])) ∧
    lockNamespace = 1562825682 := by
  refine ⟨?_, ?_, by decide⟩
  · intro h; subst h; rfl
  · intro h; subst h; rfl

/-- Witness for C8: outside a transaction, the call fails fast. -/
theorem tryAcquireAdvisoryLock_witness :
    TryAcquireAdvisoryLock false (fun _ _ => true) "k" =
      ((false, some NoTransactionError), []) :=
  (tryAcquireAdvisoryLock_spec false (fun _ _ => true) "k").1 rfl

/-! ## C9: `changeset_ids` is a set -/

/-- A campaign whose caller-supplied `ChangesetIDs` slice has duplicates. -/
def c9Campaign : Campaign :=
  { id := 4, name := "c", description := "", branch := "b", authorID := 1
    namespaceUserID := 1, namespaceOrgID := 0, createdAt := 0, updatedAt := 0
    changesetIDs := [7, 7, 3], patchSetID := 0, closedAt := 0 }

/-- Claim C9: every campaign row written by `CreateCampaign` or
`UpdateCampaign` stores `changeset_ids` serialized through `jsonSetColumn`,
a duplicate-free set that keeps exactly the memberships of the caller's
slice; the scanned-back campaign carries the same set. -/
theorem campaign_changeset_ids_set (now : Time) (t : CampaignTable) (c : Campaign) :
    ((CreateCampaign now t c).1.changesetIDs.Nodup ∧
      ∀ x, x ∈ (CreateCampaign now t c).1.changesetIDs ↔ x ∈ c.changesetIDs) ∧
    (∀ r ∈ (CreateCampaign now t c).2.rows, r ∈ t.rows ∨
      (r.changesetIDs.Nodup ∧ ∀ x, x ∈ r.changesetIDs ↔ x ∈ c.changesetIDs)) ∧
    ((UpdateCampaign now t c).1.changesetIDs.Nodup ∧
      ∀ x, x ∈ (UpdateCampaign now t c).1.changesetIDs ↔ x ∈ c.changesetIDs) ∧
    (∀ r ∈ (UpdateCampaign now t c).2.rows, r ∈ t.rows ∨
      (r.changesetIDs.Nodup ∧ ∀ x, x ∈ r.changesetIDs ↔ x ∈ c.changesetIDs)) := by
  have hcr : (CreateCampaign now t c).1.changesetIDs = jsonSetColumn c.changesetIDs := by
    simp only [CreateCampaign]
    split <;> split <;> rfl
  have hrows : (CreateCampaign now t c).2.rows =
      t.rows ++ [(CreateCampaign now t c).1] := rfl
  have hup : (UpdateCampaign now t c).1.changesetIDs = jsonSetColumn c.changesetIDs := rfl
  refine ⟨⟨?_, ?_⟩, ?_, ⟨?_, ?_⟩, ?_⟩
  · rw [hcr]; exact List.nodup_dedup _
  · intro x; rw [hcr]; exact List.mem_dedup
  · intro r hr
    rw [hrows] at hr
    rcases List.mem_append.1 hr with h | h
    · exact Or.inl h
    · refine Or.inr ?_
      rcases List.mem_singleton.1 h with rfl
      exact ⟨by rw [hcr]; exact List.nodup_dedup _,
        fun x => by rw [hcr]; exact List.mem_dedup⟩
  · rw [hup]; exact List.nodup_dedup _
  · intro x; rw [hup]; exact List.mem_dedup
  · intro r hr
    simp only [UpdateCampaign, List.mem_map] at hr
    rcases hr with ⟨a, ha, rfl⟩
    by_cases hid : a.id = c.id
    · refine Or.inr ?_
      simp only [hid, if_pos rfl]
      exact ⟨List.nodup_dedup _, fun x => List.mem_dedup⟩
    · simp only [if_neg hid]
      exact Or.inl ha

/-- Witness for C9: duplicates in the caller's slice collapse. -/
theorem campaign_changeset_ids_set_witness :
    (CreateCampaign 1 ⟨[], 1⟩ c9Campaign).1.changesetIDs.Nodup :=
  (campaign_changeset_ids_set 1 ⟨[], 1⟩ c9Campaign).1.1

/-! ## C10: default page size 50 -/

/-- The trimming step shared by every `List*` method: a page of at most
`lim` query rows, trimmed when the extra row came back, has at most
`lim - 1` rows. -/
theorem trimmedPage_length_le {α : Type} (l : List α) (nx lim : Nat)
    (h : l.length ≤ lim) (hpos : 0 < lim) :
    (if lim ≠ 0 ∧ l.length = lim then (l.dropLast, nx) else (l, 0)).1.length ≤
      lim - 1 := by
  split
  · next hc => simp [List.length_dropLast, hc.2]
  · next hc =>
      push_neg at hc
      have h2 := hc (by omega)
      show l.length ≤ lim - 1
      omega

/-- Claim C10: every List operation replaces a caller-supplied limit of
zero by the default page size `defaultListLimit = 50` before issuing the
`limit+1` request, so each such call returns at most 50 rows per page. -/
theorem list_default_limit (a : List Changeset) (b : List ChangesetEvent)
    (c : List Campaign) (d : List PatchSet) (e : List Patch)
    (f : List ChangesetJob) (cur : Nat) :
    defaultListLimit = 50 ∧
    (ListChangesets a cur 0).1.length ≤ 50 ∧
    (ListChangesetEvents b cur 0).1.length ≤ 50 ∧
    (ListCampaigns c cur 0).1.length ≤ 50 ∧
    (ListPatchSets d cur 0).1.length ≤ 50 ∧
    (ListPatches e cur 0).1.length ≤ 50 ∧
    (ListChangesetJobs f cur 0).1.length ≤ 50 := by
  refine ⟨rfl, ?_, ?_, ?_, ?_, ?_, ?_⟩
  · exact le_of_le_of_eq
      (trimmedPage_length_le _ _ _ (List.length_take_le _ _) (Nat.succ_pos _)) rfl
  · exact le_of_le_of_eq
      (trimmedPage_length_le _ _ _ (List.length_take_le _ _) (Nat.succ_pos _)) rfl
  · exact le_of_le_of_eq
      (trimmedPage_length_le _ _ _ (List.length_take_le _ _) (Nat.succ_pos _)) rfl
  · exact le_of_le_of_eq
      (trimmedPage_length_le _ _ _ (List.length_take_le _ _) (Nat.succ_pos _)) rfl
  · exact le_of_le_of_eq
      (trimmedPage_length_le _ _ _ (List.length_take_le _ _) (Nat.succ_pos _)) rfl
  · exact le_of_le_of_eq
      (trimmedPage_length_le _ _ _ (List.length_take_le _ _) (Nat.succ_pos _)) rfl

/-! ## C6: pagination -/

/-- In a list strictly sorted on `f`, the rows with `f`-value at least that
of a distinguished element are exactly that element and its suffix — the
`id >= cursor` predicate of the List queries. -/
theorem filter_ge_of_sorted_append {α : Type} (f : α → Nat) (x : α) :
    ∀ (l1 l2 : List α), (l1 ++ x :: l2).Pairwise (fun a b => f a < f b) →
      (l1 ++ x :: l2).filter (fun r => f x ≤ f r) = x :: l2 := by
  intro l1
  induction l1 with
  | nil =>
    intro l2 hs
    rw [List.nil_append] at hs ⊢
    obtain ⟨ha, _⟩ := List.pairwise_cons.1 hs
    rw [List.filter_cons_of_pos (by simp)]
    congr 1
    exact List.filter_eq_self.mpr
      (fun b hb => by simpa using le_of_lt (ha b hb))
  | cons a t ih =>
    intro l2 hs
    rw [List.cons_append] at hs ⊢
    obtain ⟨ha, ht⟩ := List.pairwise_cons.1 hs
    have hax : f a < f x := ha x (by simp)
    rw [List.filter_cons_of_neg (by simpa using not_le.mpr hax)]
    exact ih l2 ht

/-- Evaluation of a `List*` call that gets the full `limit+1` rows back:
the extra row is trimmed and its id becomes the next cursor. -/
theorem listChangesets_full_page (rows l1 t1 : List Changeset) (z : Changeset)
    (L cur : Nat) (hL : L ≠ 0)
    (hfilter : rows.filter (fun c => decide (cur ≤ c.id)) = l1)
    (htake : l1.take (L + 1) = t1 ++ [z])
    (hlen : (t1 ++ [z]).length = L + 1) :
    ListChangesets rows cur L = (t1, z.id) := by
  simp only [ListChangesets]
  rw [if_neg hL, hfilter, htake,
    if_pos (⟨Nat.succ_ne_zero L, hlen⟩ : L + 1 ≠ 0 ∧ (t1 ++ [z]).length = L + 1),
    List.dropLast_concat, List.getLast?_concat]
  rfl

/-- Evaluation of a `List*` call that gets fewer than `limit+1` rows back:
the page is returned untrimmed with a zero next cursor. -/
theorem listChangesets_short_page (rows l1 : List Changeset) (L cur : Nat)
    (hL : L ≠ 0)
    (hfilter : rows.filter (fun c => decide (cur ≤ c.id)) = l1)
    (hshort : l1.length < L + 1) :
    ListChangesets rows cur L = (l1, 0) := by
  simp only [ListChangesets]
  rw [if_neg hL, hfilter, List.take_of_length_le (Nat.le_of_lt hshort),
    if_neg (by omega : ¬ (L + 1 ≠ 0 ∧ l1.length = L + 1))]

/-- Claim C6: for a table of `2·limit+1` rows with distinct ascending ids,
three successive `ListChangesets` calls chained by the returned cursor
return every row exactly once, in order, and the third call's next cursor
is zero.  Each call requests `limit+1` rows with `id >= cursor`; a full
result trims the extra row and returns its id as the cursor. -/
theorem listChangesets_pagination (rows : List Changeset) (L : Nat)
    (hsort : rows.Pairwise (fun a b => a.id < b.id))
    (hlen : rows.length = 2 * L + 1) (hL : 0 < L) :
    (ListChangesets rows 0 L).1 ++
      (ListChangesets rows (ListChangesets rows 0 L).2 L).1 ++
      (ListChangesets rows
        (ListChangesets rows (ListChangesets rows 0 L).2 L).2 L).1 = rows ∧
    (ListChangesets rows
      (ListChangesets rows (ListChangesets rows 0 L).2 L).2 L).2 = 0 := by
  have hLne : L ≠ 0 := hL.ne'
  have hL1 : L < rows.length := by omega
  have h2L : 2 * L < rows.length := by omega
  set x := rows.get ⟨L, hL1⟩ with hxdef
  set y := rows.get ⟨2 * L, h2L⟩ with hydef
  have hxe : rows[L]? = some x := by
    rw [List.getElem?_eq_getElem hL1, hxdef, List.get_eq_getElem]
  have hye : rows[2 * L]? = some y := by
    rw [List.getElem?_eq_getElem h2L, hydef, List.get_eq_getElem]
  -- decomposition of the table around position L
  have htake1 : rows.take (L + 1) = rows.take L ++ [x] := by
    rw [List.take_succ, hxe]; rfl
  have hdropL : rows.drop L = x :: rows.drop (L + 1) := by
    rw [List.drop_eq_getElem_cons hL1, hxdef, List.get_eq_getElem]
  have hdecomp : rows = rows.take L ++ x :: rows.drop (L + 1) := by
    conv_lhs => rw [← List.take_append_drop L rows, hdropL]
  -- the drop-L suffix ends in the row at position 2L
  have hu2e : (rows.drop L)[L]? = some y := by
    rw [List.getElem?_drop]
    have : L + L = 2 * L := by omega
    rw [this, hye]
  have hu2len : (rows.drop L).length = L + 1 := by
    rw [List.length_drop]; omega
  have hu2take : (rows.drop L).take (L + 1) = (rows.drop L).take L ++ [y] := by
    rw [List.take_succ, hu2e]; rfl
  have hu2full : (rows.drop L).take L ++ [y] = rows.drop L := by
    rw [← hu2take, List.take_of_length_le (le_of_eq hu2len)]
  -- decomposition of the table around position 2L
  have hdropy : rows.drop (2 * L) = y :: rows.drop (2 * L + 1) := by
    rw [List.drop_eq_getElem_cons h2L, hydef, List.get_eq_getElem]
  have hdecomp2 : rows = rows.take (2 * L) ++ y :: rows.drop (2 * L + 1) := by
    conv_lhs => rw [← List.take_append_drop (2 * L) rows, hdropy]
  have hdroplast : rows.drop (2 * L + 1) = [] :=
    List.drop_of_length_le (by omega)
  -- call 1: cursor 0, full page
  have hfilter1 : rows.filter (fun c => decide (0 ≤ c.id)) = rows :=
    List.filter_eq_self.mpr (fun a _ => by simp)
  have hlen1 : (rows.take L ++ [x]).length = L + 1 := by
    rw [← htake1, List.length_take]; omega
  have hcall1 : ListChangesets rows 0 L = (rows.take L, x.id) :=
    listChangesets_full_page rows rows (rows.take L) x L 0 hLne hfilter1 htake1 hlen1
  -- call 2: cursor x.id, full page
  have hfilter2 : rows.filter (fun c => decide (x.id ≤ c.id)) = x :: rows.drop (L + 1) := by
    conv_lhs => rw [hdecomp]
    exact filter_ge_of_sorted_append (·.id) x (rows.take L) (rows.drop (L + 1))
      (hdecomp ▸ hsort)
  have hfilter2' : rows.filter (fun c => decide (x.id ≤ c.id)) = rows.drop L := by
    rw [hfilter2, hdropL]
  have htake2 : (rows.drop L).take (L + 1) = (rows.drop L).take L ++ [y] := hu2take
  have hlen2 : ((rows.drop L).take L ++ [y]).length = L + 1 := by
    rw [hu2full]; exact hu2len
  have hcall2 : ListChangesets rows x.id L = ((rows.drop L).take L, y.id) :=
    listChangesets_full_page rows (rows.drop L) ((rows.drop L).take L) y L x.id
      hLne hfilter2' htake2 hlen2
  -- call 3: cursor y.id, short page
  have hfilter3 : rows.filter (fun c => decide (y.id ≤ c.id)) = [y] := by
    conv_lhs => rw [hdecomp2]
    rw [filter_ge_of_sorted_append (·.id) y (rows.take (2 * L)) (rows.drop (2 * L + 1))
      (hdecomp2 ▸ hsort), hdroplast]
  have hcall3 : ListChangesets rows y.id L = ([y], 0) :=
    listChangesets_short_page rows [y] L y.id hLne hfilter3 (by simp; omega)
  -- assemble
  constructor
  · simp only [hcall1, hcall2, hcall3]
    rw [List.append_assoc, hu2full, List.take_append_drop]
  · simp only [hcall1, hcall2, hcall3]

/-- Rows for the C6 witness: three rows, `limit = 1`. -/
def c6Rows : List Changeset :=
  [{ id := 1, repoID := 1, createdAt := 1, updatedAt := 1, metadata := ""
     campaignIDs := [], externalID := "a", externalServiceType := "github"
     externalBranch := "", externalDeletedAt := 0, externalUpdatedAt := 0
     externalState := "", externalReviewState := "", externalCheckState := "" },
   { id := 2, repoID := 2, createdAt := 1, updatedAt := 1, metadata := ""
     campaignIDs := [], externalID := "b", externalServiceType := "github"
     externalBranch := "", externalDeletedAt := 0, externalUpdatedAt := 0
     externalState := "", externalReviewState := "", externalCheckState := "" },
   { id := 3, repoID := 3, createdAt := 1, updatedAt := 1, metadata := ""
     campaignIDs := [], externalID := "c", externalServiceType := "github"
     externalBranch := "", externalDeletedAt := 0, externalUpdatedAt := 0
     externalState := "", externalReviewState := "", externalCheckState := "" }]

/-- Witness for C6: three pages of limit 1 walk a three-row table. -/
theorem listChangesets_pagination_witness :
    (ListChangesets c6Rows 0 1).1 ++
      (ListChangesets c6Rows (ListChangesets c6Rows 0 1).2 1).1 ++
      (ListChangesets c6Rows
        (ListChangesets c6Rows (ListChangesets c6Rows 0 1).2 1).2 1).1 = c6Rows ∧
    (ListChangesets c6Rows
      (ListChangesets c6Rows (ListChangesets c6Rows 0 1).2 1).2 1).2 = 0 :=
  listChangesets_pagination c6Rows 1 (by decide) (by decide) (by decide)

/-! ## C7: event merge semantics -/

/-- Stamping an event does not change its unique key triple. -/
theorem ceKey_stampEvent (now : Time) (e : ChangesetEvent) :
    ceKey (stampEvent now e) = ceKey e := by
  simp only [stampEvent]
  split <;> split <;> rfl

/-- Stamping an event does not change its metadata. -/
theorem stampEvent_metadata (now : Time) (e : ChangesetEvent) :
    (stampEvent now e).metadata = e.metadata := by
  simp only [stampEvent]
  split <;> split <;> rfl

/-- The stamped `updated_at` is either `now()` or the caller's value. -/
theorem stampEvent_updatedAt (now : Time) (e : ChangesetEvent) :
    (stampEvent now e).updatedAt = now ∨ (stampEvent now e).updatedAt = e.updatedAt := by
  simp only [stampEvent]
  set e1 := if e.createdAt = 0 then { e with createdAt := now } else e with he1
  have h1 : e1.updatedAt = e.updatedAt := by rw [he1]; split <;> rfl
  split
  · exact Or.inl rfl
  · exact Or.inr h1

/-- Claim C7: upserting a `ChangesetEvent` whose `(changeset_id, kind,
key)` triple already exists updates only the existing row's `metadata` and
`updated_at`: the row keeps its `id`, key triple and `created_at` (the
returned event is that merged row), no row is inserted (the id sequence
does not move), and rows with other keys are untouched. -/
theorem upsertChangesetEvents_merge (now : Time) (t : ChangesetEventTable)
    (e old : ChangesetEvent)
    (hfound : findEvent t.rows (ceKey e) = some old) :
    (UpsertChangesetEvents now t [e]).updated =
      [{ old with
          metadata := e.metadata
          updatedAt := (stampEvent now e).updatedAt }] ∧
    (UpsertChangesetEvents now t [e]).table.rows =
      t.rows.map (fun r => if ceKey r = ceKey e then
        { old with
            metadata := e.metadata
            updatedAt := (stampEvent now e).updatedAt } else r) ∧
    (UpsertChangesetEvents now t [e]).table.nextID = t.nextID ∧
    ((stampEvent now e).updatedAt = now ∨ (stampEvent now e).updatedAt = e.updatedAt) := by
  have hfind : findEvent t.rows (ceKey (stampEvent now e)) = some old := by
    rw [ceKey_stampEvent]; exact hfound
  refine ⟨?_, ?_, ?_, stampEvent_updatedAt now e⟩ <;>
    simp only [UpsertChangesetEvents, stampChangesetEvents, List.map_cons,
      List.map_nil, runUpsertEvents, ceKey_stampEvent, hfound, stampEvent_metadata]

/-- The pre-existing event row for the C7 witness. -/
def c7Old : ChangesetEvent :=
  { id := 3, changesetID := 8, kind := "reviewed", key := "k1"
    createdAt := 2, updatedAt := 2, metadata := "old" }

/-- Events table holding `c7Old`; the id sequence is at 5. -/
def c7Table : ChangesetEventTable := { rows := [c7Old], nextID := 5 }

/-- An incoming event with the same key triple and new metadata. -/
def c7Event : ChangesetEvent :=
  { id := 0, changesetID := 8, kind := "reviewed", key := "k1"
    createdAt := 0, updatedAt := 0, metadata := "new" }

/-- Witness for C7 on a one-row table. -/
theorem upsertChangesetEvents_merge_witness :
    (UpsertChangesetEvents 9 c7Table [c7Event]).updated =
      [{ c7Old with
          metadata := c7Event.metadata
          updatedAt := (stampEvent 9 c7Event).updatedAt }] ∧
    (UpsertChangesetEvents 9 c7Table [c7Event]).table.rows =
      c7Table.rows.map (fun r => if ceKey r = ceKey c7Event then
        { c7Old with
            metadata := c7Event.metadata
            updatedAt := (stampEvent 9 c7Event).updatedAt } else r) ∧
    (UpsertChangesetEvents 9 c7Table [c7Event]).table.nextID = c7Table.nextID ∧
    ((stampEvent 9 c7Event).updatedAt = 9 ∨
      (stampEvent 9 c7Event).updatedAt = c7Event.updatedAt) :=
  upsertChangesetEvents_merge 9 c7Table c7Event c7Old (by decide)

/-! ## C1 and C2: the job claim queue -/

/-- With no row locks held, the `SKIP LOCKED` clause filters nothing. -/
theorem lockOf_nil (jid : Nat) : lockOf [] jid = none := rfl

/-- Evaluation of the claim statement when exactly one unlocked pending
job exists: it is stamped, locked and returned. -/
theorem claimFor_single (tx : Nat) (now : Time) (db : StoreDB) (j : ChangesetJob)
    (hone : db.changesetJobs.filter (fun x => jobPendingIn db.campaigns x) = [j])
    (hlocks : db.jobLocks = []) :
    claimFor tx now db =
      (some (stampJob now j),
        { db with
          changesetJobs := db.changesetJobs.map
            (fun r => if r.id = j.id then stampJob now r else r)
          jobLocks := [(j.id, tx)] }) := by
  have hfilter : db.changesetJobs.filter
      (fun x => jobPendingIn db.campaigns x && (lockOf db.jobLocks x.id).isNone) = [j] := by
    rw [← hone]
    apply List.filter_congr
    intro x _
    rw [hlocks, lockOf_nil]
    simp
  simp only [claimFor, hfilter, List.argmin_singleton]
  rw [hlocks]

/-- Evaluation of the claim statement when no unlocked pending job
exists: nothing is touched and "no work" is reported. -/
theorem claimFor_none (tx : Nat) (now : Time) (db : StoreDB)
    (hempty : db.changesetJobs.filter
      (fun x => jobPendingIn db.campaigns x && (lockOf db.jobLocks x.id).isNone) = []) :
    claimFor tx now db = (none, db) := by
  simp only [claimFor, hempty, List.argmin_nil]

/-- Once no job of the table satisfies the pending predicate, no schedule
of further claim statements and commits ever claims anything, whatever row
locks are held. -/
theorem runSchedule_no_pending (now : Time) (C : List Campaign)
    (S : List ChangesetJob)
    (hnp : ∀ r ∈ S, jobPendingIn C r = false) :
    ∀ (sched : List TxEvent) (lks : List (Nat × Nat)),
      (runSchedule now ⟨C, S, lks⟩ sched).2.reduceOption = [] := by
  intro sched
  induction sched with
  | nil => intro lks; rfl
  | cons ev rest ih =>
    intro lks
    cases ev with
    | claim tx =>
      have hempty : (StoreDB.mk C S lks).changesetJobs.filter
          (fun x => jobPendingIn (StoreDB.mk C S lks).campaigns x &&
            (lockOf (StoreDB.mk C S lks).jobLocks x.id).isNone) = [] := by
        apply List.filter_eq_nil_iff.mpr
        intro a ha
        simp [hnp a ha]
      rw [runSchedule]
      simp only [claimFor_none tx now _ hempty, List.reduceOption_cons_of_none]
      exact ih lks
    | commit tx =>
      rw [runSchedule]
      exact ih _

/-- Claim C1: against a table holding exactly one pending job (no row
locks held), any interleaved schedule of claim statements and commits by
concurrent callers that contains at least one claim yields exactly one
successful claim — the pending job stamped with `started_at = now()` — and
every other claim statement comes back empty; a caller whose claim comes
back empty returns `didRun = false` with no error.  `now ≠ 0` says the
database clock is not Go's zero time. -/
theorem exactly_one_claim (db : StoreDB) (j : ChangesetJob) (now : Time)
    (sched : List TxEvent)
    (hone : db.changesetJobs.filter (fun x => jobPendingIn db.campaigns x) = [j])
    (hlocks : db.jobLocks = [])
    (hnow : now ≠ 0)
    (hsched : 0 < countClaims sched) :
    (runSchedule now db sched).2.reduceOption = [stampJob now j] ∧
    (∀ (d : StoreDB) (p : ChangesetJob → StoreDB → Except String StoreDB),
      (claimFor 0 now d).1 = none →
      ProcessPendingChangesetJobs now d p = (false, none, d)) := by
  constructor
  · obtain ⟨C, S, lk⟩ := db
    simp only at hone hlocks
    subst hlocks
    -- after the single pending job is stamped, nothing is pending
    have hnp : ∀ r ∈ S.map (fun r => if r.id = j.id then stampJob now r else r),
        jobPendingIn C r = false := by
      intro r hr
      rcases List.mem_map.1 hr with ⟨a, ha, rfl⟩
      by_cases hid : a.id = j.id
      · simp only [if_pos hid]
        simp [jobPendingIn, stampJob, hnow]
      · simp only [if_neg hid]
        cases hpend : jobPendingIn C a with
        | false => rfl
        | true =>
          exfalso
          have : a ∈ S.filter (fun x => jobPendingIn C x) :=
            List.mem_filter.mpr ⟨ha, hpend⟩
          rw [hone] at this
          exact hid (congrArg ChangesetJob.id (List.mem_singleton.1 this))
    revert hsched
    induction sched with
    | nil => intro hsched; simp [countClaims] at hsched
    | cons ev rest ih =>
      intro hs
      cases ev with
      | claim tx =>
        rw [runSchedule]
        simp only [claimFor_single tx now ⟨C, S, []⟩ j hone rfl,
          List.reduceOption_cons_of_some]
        rw [runSchedule_no_pending now C _ hnp rest [(j.id, tx)]]
      | commit tx =>
        rw [runSchedule]
        have hcm : commitFor tx ⟨C, S, []⟩ = StoreDB.mk C S [] := by
          simp [commitFor]
        have hcount : countClaims (TxEvent.commit tx :: rest) = countClaims rest := by
          simp [countClaims, List.countP_cons]
        rw [hcm]
        exact ih (hcount ▸ hs)
  · intro d p h
    unfold ProcessPendingChangesetJobs
    rcases hc : claimFor 0 now d with ⟨o, d2⟩
    rw [hc] at h
    simp only at h
    subst h
    rfl

/-- Campaign and job table for the C1 and C2 witnesses: one campaign with
a patch set attached and one never-started job. -/
def c1DB : StoreDB :=
  { campaigns :=
      [{ id := 1, name := "n", description := "", branch := "b", authorID := 1
         namespaceUserID := 1, namespaceOrgID := 0, createdAt := 1, updatedAt := 1
         changesetIDs := [], patchSetID := 5, closedAt := 0 }]
    changesetJobs :=
      [{ id := 1, campaignID := 1, patchID := 2, changesetID := 0, branch := "b"
         error := "", startedAt := 0, finishedAt := 0, createdAt := 1, updatedAt := 1 }]
    jobLocks := [] }

/-- The single pending job of `c1DB`. -/
def c1Job : ChangesetJob :=
  { id := 1, campaignID := 1, patchID := 2, changesetID := 0, branch := "b"
    error := "", startedAt := 0, finishedAt := 0, createdAt := 1, updatedAt := 1 }

/-- Three callers race: two claims, a commit, a third claim. -/
def c1Sched : List TxEvent :=
  [TxEvent.claim 1, TxEvent.claim 2, TxEvent.commit 1, TxEvent.claim 3]

/-- Witness for C1: of four interleaved events with three claims, exactly
the first claim succeeds. -/
theorem exactly_one_claim_witness :
    (runSchedule 3 c1DB c1Sched).2.reduceOption = [stampJob 3 c1Job] :=
  (exactly_one_claim c1DB c1Job 3 c1Sched (by decide) (by decide) (by decide)
    (by decide)).1

/-- Claim C2: when the callback handed the claimed job fails, the whole
transaction rolls back — the database is exactly as before the call, so
the job's `started_at` is NULL again — the callback's error is returned to
the caller together with `didRun = true`, and a subsequent claim statement
claims the very same job. -/
theorem processPendingChangesetJobs_rollback (now now2 : Time) (db : StoreDB)
    (j : ChangesetJob) (e : String)
    (process : ChangesetJob → StoreDB → Except String StoreDB)
    (hone : db.changesetJobs.filter (fun x => jobPendingIn db.campaigns x) = [j])
    (hlocks : db.jobLocks = [])
    (hp : ∀ s, process (stampJob now j) s = Except.error e) :
    ProcessPendingChangesetJobs now db process = (true, some e, db) ∧
    (claimFor 0 now2 db).1 = some (stampJob now2 j) := by
  constructor
  · simp only [ProcessPendingChangesetJobs,
      claimFor_single 0 now db j hone hlocks, hp]
  · rw [claimFor_single 0 now2 db j hone hlocks]

/-- Witness for C2: a callback that always fails leaves `c1DB` untouched
and claimable again. -/
theorem processPendingChangesetJobs_rollback_witness :
    ProcessPendingChangesetJobs 3 c1DB (fun _ _ => Except.error "boom") =
      (true, some "boom", c1DB) ∧
    (claimFor 0 4 c1DB).1 = some (stampJob 4 c1Job) :=
  processPendingChangesetJobs_rollback 3 4 c1DB c1Job "boom"
    (fun _ _ => Except.error "boom") (by decide) (by decide) (fun _ => rfl)

/-! ## C3 and C4: the changeset batch upsert -/

/-- Stamping a changeset does not change its conflict key. -/
theorem csKey_stampChangeset (now : Time) (c : Changeset) :
    csKey (stampChangeset now c) = csKey c := by
  simp only [stampChangeset]
  split <;> split <;> rfl

/-- Stamping does not change the batch's conflict keys. -/
theorem stampChangesets_map_csKey (now : Time) (cs : List Changeset) :
    (stampChangesets now cs).map csKey = cs.map csKey := by
  rw [stampChangesets, List.map_map]
  exact List.map_congr_left (fun a _ => csKey_stampChangeset now a)

/-- The stamped `created_at` sentinel: the caller's value, or `now()` when
the caller left it zero. -/
theorem stampChangeset_createdAt (now : Time) (c : Changeset) :
    (stampChangeset now c).createdAt =
      if c.createdAt = 0 then now else c.createdAt := by
  simp only [stampChangeset]
  set c1 := if c.createdAt = 0 then { c with createdAt := now } else c with hc1
  have h1 : c1.createdAt = if c.createdAt = 0 then now else c.createdAt := by
    rw [hc1]; split <;> rfl
  split
  · exact h1
  · exact h1

/-- Main invariant of the `CreateChangesets` statement, by induction over
the batch.  `orig` is the statement-start snapshot; the working table is
`orig` extended by the rows `extra` inserted so far (whose keys come from
already-processed batch rows).  For every batch row: a key conflict with
the snapshot returns the snapshot row untouched, a fresh key returns the
row inserted for it; outputs keep the batch row's key, land in the final
table, and the table only grows at the end; the sentinel comparison
reports exactly the conflicting rows' ids, in input order. -/
theorem runUpsert_spec (orig : List Changeset) :
    ∀ (batch extra : List Changeset) (n : Nat),
      ((batch.map csKey).Nodup) →
      (∀ f ∈ extra, csKey f ∉ batch.map csKey) →
      (∀ b ∈ batch, ∀ e, findByKey orig (csKey b) = some e →
        e.createdAt ≠ b.createdAt) →
      (∀ p ∈ batch.zip (runUpsert orig ⟨orig ++ extra, n⟩ batch).1, ∀ e,
          findByKey orig (csKey p.1) = some e → p.2 = e) ∧
      (∀ p ∈ batch.zip (runUpsert orig ⟨orig ++ extra, n⟩ batch).1,
          csKey p.2 = csKey p.1) ∧
      (∀ o ∈ (runUpsert orig ⟨orig ++ extra, n⟩ batch).1,
          o ∈ (runUpsert orig ⟨orig ++ extra, n⟩ batch).2.rows) ∧
      (∃ news, (runUpsert orig ⟨orig ++ extra, n⟩ batch).2.rows =
        orig ++ extra ++ news) ∧
      (((batch.zip (runUpsert orig ⟨orig ++ extra, n⟩ batch).1).filter
          (fun p => p.2.createdAt ≠ p.1.createdAt)).map (fun p => p.2.id)
        = batch.filterMap (fun b => (findByKey orig (csKey b)).map (fun r => r.id))) := by
  intro batch
  induction batch with
  | nil =>
    intro extra n _ _ _
    refine ⟨?_, ?_, ?_, ⟨[], by simp [runUpsert]⟩, ?_⟩ <;> simp [runUpsert]
  | cons c cs ih =>
    intro extra n hnodup hextra hsent
    have hnodup' : (cs.map csKey).Nodup :=
      (List.nodup_cons.1 (by simpa using hnodup)).2
    have hkey_not : csKey c ∉ cs.map csKey :=
      (List.nodup_cons.1 (by simpa using hnodup)).1
    have hsent' : ∀ b ∈ cs, ∀ e, findByKey orig (csKey b) = some e →
        e.createdAt ≠ b.createdAt :=
      fun b hb => hsent b (List.mem_cons_of_mem c hb)
    cases hfind : findByKey orig (csKey c) with
    | some e0 =>
      have hfind2 : findByKey (orig ++ extra) (csKey c) = some e0 := by
        unfold findByKey at hfind ⊢
        rw [List.find?_append, hfind]
        rfl
      have hextra' : ∀ f ∈ extra, csKey f ∉ cs.map csKey := by
        intro f hf
        have := hextra f hf
        simp only [List.map_cons, List.mem_cons] at this
        exact fun hc => this (Or.inr hc)
      obtain ⟨ih1, ih2, ih3, ⟨news, ihnews⟩, ih5⟩ := ih extra n hnodup' hextra' hsent'
      have hkey_e0 : csKey e0 = csKey c := by
        simpa using List.find?_some hfind
      have he0_mem : e0 ∈ orig := List.mem_of_find?_eq_some hfind
      simp only [runUpsert, hfind2]
      refine ⟨?_, ?_, ?_, ⟨news, ihnews⟩, ?_⟩
      · intro p hp e he
        rw [List.zip_cons_cons] at hp
        rcases List.mem_cons.1 hp with rfl | hp'
        · rw [hfind] at he
          exact (Option.some_inj.1 he).symm ▸ rfl
        · exact ih1 p hp' e he
      · intro p hp
        rw [List.zip_cons_cons] at hp
        rcases List.mem_cons.1 hp with rfl | hp'
        · exact hkey_e0
        · exact ih2 p hp'
      · intro o ho
        rcases List.mem_cons.1 ho with rfl | ho'
        · rw [ihnews]
          exact List.mem_append.2 (Or.inl (List.mem_append.2 (Or.inl he0_mem)))
        · exact ih3 o ho'
      · rw [List.zip_cons_cons,
          List.filter_cons_of_pos (by simpa using hsent c (by simp) e0 hfind),
          List.map_cons, List.filterMap_cons, hfind, ih5]
        rfl
    | none =>
      have hfind3 : findByKey (orig ++ extra) (csKey c) = none := by
        unfold findByKey at hfind ⊢
        rw [List.find?_append, hfind]
        simp only [Option.none_or]
        exact List.find?_eq_none.2 (fun f hf => by
          have := hextra f hf
          simp only [List.map_cons, List.mem_cons] at this
          simp only [decide_eq_true_eq]
          exact fun hc => this (Or.inl hc))
      have hextra'' : ∀ f ∈ extra ++ [{ c with id := n }],
          csKey f ∉ cs.map csKey := by
        intro f hf
        rcases List.mem_append.1 hf with hf' | hf'
        · have := hextra f hf'
          simp only [List.map_cons, List.mem_cons] at this
          exact fun hc => this (Or.inr hc)
        · rcases List.mem_singleton.1 hf' with rfl
          exact hkey_not
      obtain ⟨ih1, ih2, ih3, ⟨news, ihnews⟩, ih5⟩ :=
        ih (extra ++ [{ c with id := n }]) (n + 1) hnodup' hextra'' hsent'
      rw [← List.append_assoc] at ih1 ih2 ih3 ihnews ih5
      simp only [runUpsert, hfind3]
      refine ⟨?_, ?_, ?_, ⟨{ c with id := n } :: news, ?_⟩, ?_⟩
      · intro p hp e he
        rw [List.zip_cons_cons] at hp
        rcases List.mem_cons.1 hp with rfl | hp'
        · rw [hfind] at he
          exact absurd he (by simp)
        · exact ih1 p hp' e he
      · intro p hp
        rw [List.zip_cons_cons] at hp
        rcases List.mem_cons.1 hp with rfl | hp'
        · rfl
        · exact ih2 p hp'
      · intro o ho
        rcases List.mem_cons.1 ho with rfl | ho'
        · rw [ihnews]
          exact List.mem_append.2 (Or.inl (List.mem_append.2 (Or.inr (by simp))))
        · exact ih3 o ho'
      · rw [ihnews, List.append_assoc]
        rfl
      · rw [List.zip_cons_cons, List.filter_cons_of_neg (by simp),
          List.filterMap_cons, hfind, ih5]
        rfl

/-- Claim C3: `CreateChangesets` stamps every record's `created_at`
sentinel (the caller's value, or `now()` if zero) before the statement;
when every conflicting table row's `created_at` differs from the
corresponding sentinel (the store's clocks guarantee this in use), the
call reports exactly the pre-existing rows, by their database ids in input
order, in the `AlreadyExistError`; the scanned-back objects carry the
authoritative database rows; the table keeps its old rows and gains the
fresh inserts even when the error is reported (partial success); and no
error is reported exactly when no row pre-existed. -/
theorem createChangesets_sentinel (now : Time) (t : ChangesetTable)
    (cs : List Changeset)
    (hkeys : ((stampChangesets now cs).map csKey).Nodup)
    (hsent : ∀ b ∈ stampChangesets now cs, ∀ e,
      findByKey t.rows (csKey b) = some e → e.createdAt ≠ b.createdAt) :
    ((stampChangesets now cs).map (fun c => c.createdAt) =
      cs.map (fun c => if c.createdAt = 0 then now else c.createdAt)) ∧
    ((CreateChangesets now t cs).existIDs =
      (stampChangesets now cs).filterMap
        (fun b => (findByKey t.rows (csKey b)).map (fun r => r.id))) ∧
    (∀ p ∈ (stampChangesets now cs).zip (CreateChangesets now t cs).updated, ∀ e,
      findByKey t.rows (csKey p.1) = some e → p.2 = e) ∧
    (∀ o ∈ (CreateChangesets now t cs).updated,
      o ∈ (CreateChangesets now t cs).table.rows) ∧
    (∃ news, (CreateChangesets now t cs).table.rows = t.rows ++ news) ∧
    (alreadyExistResult (CreateChangesets now t cs) = none ↔
      ∀ b ∈ stampChangesets now cs, findByKey t.rows (csKey b) = none) := by
  have big := runUpsert_spec t.rows (stampChangesets now cs) [] t.nextID
    hkeys (by simp) hsent
  rw [List.append_nil] at big
  obtain ⟨b1, b2, b3, b4, b5⟩ := big
  have hexist : (CreateChangesets now t cs).existIDs =
      (stampChangesets now cs).filterMap
        (fun b => (findByKey t.rows (csKey b)).map (fun r => r.id)) := b5
  refine ⟨?_, hexist, b1, b3, ?_, ?_⟩
  · rw [stampChangesets, List.map_map]
    exact List.map_congr_left (fun a _ => stampChangeset_createdAt now a)
  · obtain ⟨news, hnews⟩ := b4
    exact ⟨news, hnews⟩
  · have hiff : alreadyExistResult (CreateChangesets now t cs) = none ↔
        (CreateChangesets now t cs).existIDs = [] := by
      unfold alreadyExistResult
      split
      · next hx => simp [hx]
      · next hx => simp [hx]
    rw [hiff, hexist, List.filterMap_eq_nil_iff]
    simp only [Option.map_eq_none']

/-- Existing table row for the C3 witness: key `(1, "a")`, id 7. -/
def c3Existing : Changeset :=
  { id := 7, repoID := 1, createdAt := 1, updatedAt := 1, metadata := ""
    campaignIDs := [], externalID := "a", externalServiceType := "github"
    externalBranch := "", externalDeletedAt := 0, externalUpdatedAt := 0
    externalState := "", externalReviewState := "", externalCheckState := "" }

/-- Table holding `c3Existing`; the id sequence is at 10. -/
def c3Table : ChangesetTable := { rows := [c3Existing], nextID := 10 }

/-- A batch of two records: one colliding with `c3Existing`, one fresh. -/
def c3Batch : List Changeset :=
  [{ id := 0, repoID := 1, createdAt := 0, updatedAt := 0, metadata := ""
     campaignIDs := [], externalID := "a", externalServiceType := "github"
     externalBranch := "", externalDeletedAt := 0, externalUpdatedAt := 0
     externalState := "", externalReviewState := "", externalCheckState := "" },
   { id := 0, repoID := 2, createdAt := 0, updatedAt := 0, metadata := ""
     campaignIDs := [], externalID := "b", externalServiceType := "github"
     externalBranch := "", externalDeletedAt := 0, externalUpdatedAt := 0
     externalState := "", externalReviewState := "", externalCheckState := "" }]

/-- Witness for C3: exactly the colliding row's id, 7, is reported. -/
theorem createChangesets_sentinel_witness :
    (CreateChangesets 9 c3Table c3Batch).existIDs = [7] :=
  ((createChangesets_sentinel 9 c3Table c3Batch (by decide) (by decide)).2.1).trans
    (by decide)

/-- Fresh rows as the id sequence numbers them: the `k`-th batch row gets
id `n + k`. -/
def assignIDs : Nat → List Changeset → List Changeset
  | _, [] => []
  | n, c :: cs => { c with id := n } :: assignIDs (n + 1) cs

/-- Keys are untouched by id assignment. -/
theorem assignIDs_map_csKey : ∀ (n : Nat) (cs : List Changeset),
    (assignIDs n cs).map csKey = cs.map csKey
  | _, [] => rfl
  | n, c :: cs => by
    rw [assignIDs, List.map_cons, List.map_cons, assignIDs_map_csKey (n + 1) cs]
    rfl

/-- Id assignment preserves the batch's length. -/
theorem assignIDs_length : ∀ (n : Nat) (cs : List Changeset),
    (assignIDs n cs).length = cs.length
  | _, [] => rfl
  | n, c :: cs => by
    rw [assignIDs, List.length_cons, List.length_cons, assignIDs_length (n + 1) cs]

/-- Id assignment preserves every row's `created_at`. -/
theorem assignIDs_createdAt (v : Nat) : ∀ (n : Nat) (cs : List Changeset),
    (∀ c ∈ cs, c.createdAt = v) → ∀ x ∈ assignIDs n cs, x.createdAt = v := by
  intro n cs
  induction cs generalizing n with
  | nil => intro _ x hx; cases hx
  | cons c cs ih =>
    intro hall x hx
    rcases List.mem_cons.1 hx with rfl | hx'
    · exact hall c (by simp)
    · exact ih (n + 1) (fun a ha => hall a (List.mem_cons_of_mem c ha)) x hx'

/-- When no batch row's key is in the table and the batch's keys are
distinct, the statement inserts every row, numbering them off the id
sequence, and returns the inserted rows. -/
theorem runUpsert_all_fresh (orig : List Changeset) :
    ∀ (cs : List Changeset) (t : ChangesetTable),
      ((cs.map csKey).Nodup) →
      (∀ b ∈ cs, findByKey t.rows (csKey b) = none) →
      runUpsert orig t cs =
        (assignIDs t.nextID cs,
          ⟨t.rows ++ assignIDs t.nextID cs, t.nextID + cs.length⟩) := by
  intro cs
  induction cs with
  | nil =>
    intro t _ _
    simp [runUpsert, assignIDs]
  | cons c cs ih =>
    intro t hnodup hfresh
    have hfindc : findByKey t.rows (csKey c) = none := hfresh c (by simp)
    have hkey_not : csKey c ∉ cs.map csKey :=
      (List.nodup_cons.1 (by simpa using hnodup)).1
    have hfresh' : ∀ b ∈ cs,
        findByKey (t.rows ++ [{ c with id := t.nextID }]) (csKey b) = none := by
      intro b hb
      unfold findByKey at hfresh ⊢
      rw [List.find?_append, hfresh b (List.mem_cons_of_mem c hb)]
      simp only [Option.none_or]
      apply List.find?_eq_none.2
      intro f hf
      rcases List.mem_singleton.1 hf with rfl
      simp only [decide_eq_true_eq]
      intro hkeq
      exact hkey_not (hkeq ▸ List.mem_map_of_mem csKey hb)
    rw [show runUpsert orig t (c :: cs) =
        (({ c with id := t.nextID } : Changeset) ::
            (runUpsert orig ⟨t.rows ++ [{ c with id := t.nextID }], t.nextID + 1⟩ cs).1,
          (runUpsert orig ⟨t.rows ++ [{ c with id := t.nextID }], t.nextID + 1⟩ cs).2)
      from by simp only [runUpsert, hfindc]]
    have hih := ih ⟨t.rows ++ [{ c with id := t.nextID }], t.nextID + 1⟩
      ((List.nodup_cons.1 (by simpa using hnodup)).2) hfresh'
    rw [hih]
    have h2 : (t.rows ++ [{ c with id := t.nextID }]) ++ assignIDs (t.nextID + 1) cs =
        t.rows ++ assignIDs t.nextID (c :: cs) := by
      rw [List.append_assoc]
      rfl
    have h3 : t.nextID + 1 + cs.length = t.nextID + (c :: cs).length := by
      rw [List.length_cons]
      omega
    rw [h2, h3]
    rfl

/-- When every batch row's key is already in the table, the `DO NOTHING`
conflict clause leaves the table untouched and each output row is the
table row holding that key. -/
theorem runUpsert_all_conflict (orig : List Changeset) :
    ∀ (cs : List Changeset) (t : ChangesetTable),
      (∀ b ∈ cs, (findByKey t.rows (csKey b)).isSome) →
      runUpsert orig t cs =
        (cs.map (fun b => (findByKey t.rows (csKey b)).getD b), t) := by
  intro cs
  induction cs with
  | nil => intro t _; rfl
  | cons c cs ih =>
    intro t hconf
    obtain ⟨e, he⟩ := Option.isSome_iff_exists.1 (hconf c (by simp))
    rw [show runUpsert orig t (c :: cs) =
        (e :: (runUpsert orig t cs).1, (runUpsert orig t cs).2)
      from by simp only [runUpsert, he]]
    rw [ih t (fun b hb => hconf b (List.mem_cons_of_mem c hb))]
    simp [he]

/-- Looking each key of a key-identical batch up in the freshly numbered
rows returns exactly those rows, in order. -/
theorem find_assignIDs_self :
    ∀ (xs ys : List Changeset) (n : Nat),
      xs.map csKey = ys.map csKey → ((ys.map csKey).Nodup) →
      xs.map (fun b => (findByKey (assignIDs n ys) (csKey b)).getD b) =
        assignIDs n ys := by
  intro xs
  induction xs with
  | nil =>
    intro ys n hmap _
    cases ys with
    | nil => rfl
    | cons y ys => exact absurd hmap (by simp)
  | cons x xs ih =>
    intro ys n hmap hnodup
    cases ys with
    | nil => exact absurd hmap (by simp)
    | cons y ys =>
      simp only [List.map_cons, List.cons.injEq] at hmap
      obtain ⟨hxy, htail⟩ := hmap
      have hynotin : csKey y ∉ ys.map csKey :=
        (List.nodup_cons.1 (by simpa using hnodup)).1
      have hky : csKey ({ y with id := n } : Changeset) = csKey y := rfl
      have hhead : findByKey (assignIDs n (y :: ys)) (csKey x) =
          some { y with id := n } := by
        rw [assignIDs]
        unfold findByKey
        exact List.find?_cons_of_pos _ (by simp [hky, hxy])
      rw [List.map_cons, hhead]
      show ({ y with id := n } : Changeset) ::
          xs.map (fun b => (findByKey (assignIDs n (y :: ys)) (csKey b)).getD b) =
        ({ y with id := n } : Changeset) :: assignIDs (n + 1) ys
      congr 1
      have hstep : ∀ b ∈ xs,
          (findByKey (assignIDs n (y :: ys)) (csKey b)).getD b =
            (findByKey (assignIDs (n + 1) ys) (csKey b)).getD b := by
        intro b hb
        have hbkey : csKey b ∈ ys.map csKey := by
          rw [← htail]
          exact List.mem_map_of_mem csKey hb
        have hbneq : ¬ (csKey ({ y with id := n } : Changeset) = csKey b) := by
          intro hk
          exact hynotin (by
            have : csKey y = csKey b := hk
            exact this ▸ hbkey)
        rw [assignIDs]
        unfold findByKey
        rw [List.find?_cons_of_neg _ (by simpa using hbneq)]
      rw [List.map_congr_left hstep]
      exact ih ys (n + 1) htail ((List.nodup_cons.1 (by simpa using hnodup)).2)

/-- A batch of all-fresh rows compared against its own numbered output
rows: no sentinel differs, so nothing is reported. -/
theorem zip_assignIDs_filter_nil :
    ∀ (cs : List Changeset) (n : Nat),
      (cs.zip (assignIDs n cs)).filter
        (fun p => p.2.createdAt ≠ p.1.createdAt) = [] := by
  intro cs
  induction cs with
  | nil => intro n; rfl
  | cons c cs ih =>
    intro n
    rw [assignIDs, List.zip_cons_cons, List.filter_cons_of_neg (by simp)]
    exact ih (n + 1)

/-- Every row stamped from a zero `created_at` carries the clock value. -/
theorem stampChangesets_createdAt_of_zero (now : Time) (cs : List Changeset)
    (hzero : ∀ c ∈ cs, c.createdAt = 0) :
    ∀ x ∈ stampChangesets now cs, x.createdAt = now := by
  intro x hx
  rcases List.mem_map.1 hx with ⟨c, hc, rfl⟩
  rw [stampChangeset_createdAt, if_pos (hzero c hc)]

/-- The changeset used by the C4 counterexample: the caller supplies a
nonzero `created_at`, so the sentinel is the caller's value on both
calls. -/
def c4Changeset : Changeset :=
  { id := 0, repoID := 1, createdAt := 5, updatedAt := 5, metadata := ""
    campaignIDs := [], externalID := "e", externalServiceType := "github"
    externalBranch := "", externalDeletedAt := 0, externalUpdatedAt := 0
    externalState := "", externalReviewState := "", externalCheckState := "" }

/-- Counterexample to C4 as stated: upserting the same one-row batch
twice (the row carrying its own `created_at`, as `CreateChangesets`
permits) inserts the row with id 1 on the first call and conflicts on the
second — the final row set is unchanged — yet the second call reports no
`AlreadyExistError` at all, because the re-stamped sentinel equals the
stored `created_at`; the claim requires it to report the row with id 1. -/
theorem createChangesets_twice_counterexample :
    (CreateChangesets 5 ⟨[], 1⟩ [c4Changeset]).table.rows.map (fun r => r.id) = [1] ∧
    (CreateChangesets 6 (CreateChangesets 5 ⟨[], 1⟩ [c4Changeset]).table
        [c4Changeset]).table =
      (CreateChangesets 5 ⟨[], 1⟩ [c4Changeset]).table ∧
    alreadyExistResult
      (CreateChangesets 6 (CreateChangesets 5 ⟨[], 1⟩ [c4Changeset]).table
        [c4Changeset]) = none := by
  decide

/-- Claim C4 as amended: for a batch whose rows leave `created_at` zero
and whose keys are distinct, upserted twice from an empty table with the
clock advanced between the calls, the second call inserts nothing — the
final row set is the first call's — conflict outputs are matched to
inputs in input order, and every row of the batch is reported
`AlreadyExists` carrying exactly the ids the first call inserted.  (As
stated the claim fails when a row's re-stamped sentinel equals the stored
`created_at` — caller-supplied `created_at`, or an unmoved clock — in
which case the pre-existing rows are merged silently with no error.) -/
theorem createChangesets_upsert_idempotent (now1 now2 n : Nat)
    (cs : List Changeset)
    (hzero : ∀ c ∈ cs, c.createdAt = 0)
    (hkeys : (cs.map csKey).Nodup)
    (hne : now1 ≠ now2) :
    (CreateChangesets now1 ⟨[], n⟩ cs).existIDs = [] ∧
    (CreateChangesets now1 ⟨[], n⟩ cs).table.rows =
      (CreateChangesets now1 ⟨[], n⟩ cs).updated ∧
    (CreateChangesets now2 (CreateChangesets now1 ⟨[], n⟩ cs).table cs).table =
      (CreateChangesets now1 ⟨[], n⟩ cs).table ∧
    (CreateChangesets now2 (CreateChangesets now1 ⟨[], n⟩ cs).table cs).updated =
      (CreateChangesets now1 ⟨[], n⟩ cs).updated ∧
    (CreateChangesets now2 (CreateChangesets now1 ⟨[], n⟩ cs).table cs).existIDs =
      (CreateChangesets now1 ⟨[], n⟩ cs).updated.map (fun r => r.id) := by
  have hkeys1 : ((stampChangesets now1 cs).map csKey).Nodup := by
    rw [stampChangesets_map_csKey]; exact hkeys
  have hrun1 : runUpsert ([] : List Changeset) ⟨[], n⟩ (stampChangesets now1 cs) =
      (assignIDs n (stampChangesets now1 cs),
        ⟨assignIDs n (stampChangesets now1 cs),
          n + (stampChangesets now1 cs).length⟩) := by
    rw [runUpsert_all_fresh [] (stampChangesets now1 cs) ⟨[], n⟩ hkeys1
      (fun b _ => rfl)]
    rfl
  have hr1updated : (CreateChangesets now1 ⟨[], n⟩ cs).updated =
      assignIDs n (stampChangesets now1 cs) := by
    simp only [CreateChangesets, hrun1]
  have hr1rows : (CreateChangesets now1 ⟨[], n⟩ cs).table =
      ⟨assignIDs n (stampChangesets now1 cs),
        n + (stampChangesets now1 cs).length⟩ := by
    simp only [CreateChangesets, hrun1]
  -- the second call conflicts on every row
  have hkeyeq : (stampChangesets now2 cs).map csKey =
      (stampChangesets now1 cs).map csKey := by
    rw [stampChangesets_map_csKey, stampChangesets_map_csKey]
  have hconf : ∀ b ∈ stampChangesets now2 cs,
      (findByKey (assignIDs n (stampChangesets now1 cs)) (csKey b)).isSome := by
    intro b hb
    have hbkey : csKey b ∈ (assignIDs n (stampChangesets now1 cs)).map csKey := by
      rw [assignIDs_map_csKey, ← hkeyeq]
      exact List.mem_map_of_mem csKey hb
    rcases List.mem_map.1 hbkey with ⟨r, hr, hrk⟩
    exact List.find?_isSome.2 ⟨r, hr, by simp [hrk]⟩
  have hrun2 : runUpsert (assignIDs n (stampChangesets now1 cs))
      ⟨assignIDs n (stampChangesets now1 cs), n + (stampChangesets now1 cs).length⟩
      (stampChangesets now2 cs) =
      ((stampChangesets now2 cs).map (fun b =>
          (findByKey (assignIDs n (stampChangesets now1 cs)) (csKey b)).getD b),
        ⟨assignIDs n (stampChangesets now1 cs),
          n + (stampChangesets now1 cs).length⟩) :=
    runUpsert_all_conflict _ (stampChangesets now2 cs) _ hconf
  have houts2 : (stampChangesets now2 cs).map (fun b =>
      (findByKey (assignIDs n (stampChangesets now1 cs)) (csKey b)).getD b) =
      assignIDs n (stampChangesets now1 cs) :=
    find_assignIDs_self (stampChangesets now2 cs) (stampChangesets now1 cs) n
      hkeyeq hkeys1
  have hr2table : (CreateChangesets now2 (CreateChangesets now1 ⟨[], n⟩ cs).table cs).table =
      (CreateChangesets now1 ⟨[], n⟩ cs).table := by
    rw [hr1rows]
    simp only [CreateChangesets, hrun2]
  have hr2updated : (CreateChangesets now2 (CreateChangesets now1 ⟨[], n⟩ cs).table cs).updated =
      assignIDs n (stampChangesets now1 cs) := by
    rw [hr1rows]
    simp only [CreateChangesets, hrun2]
    exact houts2
  refine ⟨?_, ?_, hr2table, by rw [hr2updated, hr1updated], ?_⟩
  · -- the first call reports nothing
    show ((((stampChangesets now1 cs).zip
        (runUpsert ([] : List Changeset) ⟨[], n⟩ (stampChangesets now1 cs)).1).filter
        (fun p => p.2.createdAt ≠ p.1.createdAt)).map (fun p => p.2.id)) = []
    rw [hrun1]
    rw [zip_assignIDs_filter_nil]
    rfl
  · rw [hr1rows, hr1updated]
  · -- the second call reports every row with the first call's ids
    rw [hr1updated, hr1rows]
    show ((((stampChangesets now2 cs).zip
        (runUpsert (assignIDs n (stampChangesets now1 cs))
          ⟨assignIDs n (stampChangesets now1 cs),
            n + (stampChangesets now1 cs).length⟩ (stampChangesets now2 cs)).1).filter
        (fun p => p.2.createdAt ≠ p.1.createdAt)).map (fun p => p.2.id)) =
      (assignIDs n (stampChangesets now1 cs)).map (fun r => r.id)
    rw [hrun2, houts2]
    have hall : ∀ p ∈ (stampChangesets now2 cs).zip
        (assignIDs n (stampChangesets now1 cs)),
        (fun (p : Changeset × Changeset) =>
          decide (p.2.createdAt ≠ p.1.createdAt)) p = true := by
      intro p hp
      obtain ⟨h1, h2⟩ := List.of_mem_zip hp
      have hc1 : p.1.createdAt = now2 :=
        stampChangesets_createdAt_of_zero now2 cs hzero p.1 h1
      have hc2 : p.2.createdAt = now1 :=
        assignIDs_createdAt now1 n (stampChangesets now1 cs)
          (stampChangesets_createdAt_of_zero now1 cs hzero) p.2 h2
      simp [hc1, hc2, hne]
    rw [List.filter_eq_self.mpr hall]
    have hlen : (assignIDs n (stampChangesets now1 cs)).length ≤
        (stampChangesets now2 cs).length := by
      rw [assignIDs_length]
      simp [stampChangesets]
    rw [show (fun (p : Changeset × Changeset) => p.2.id) =
        (fun r => r.id) ∘ Prod.snd from rfl, ← List.map_map,
      List.map_snd_zip _ _ hlen]

/-- Repo-distinct batch for the C4 witness, `created_at` left zero. -/
def c4Batch : List Changeset :=
  [{ id := 0, repoID := 1, createdAt := 0, updatedAt := 0, metadata := ""
     campaignIDs := [], externalID := "a", externalServiceType := "github"
     externalBranch := "", externalDeletedAt := 0, externalUpdatedAt := 0
     externalState := "", externalReviewState := "", externalCheckState := "" },
   { id := 0, repoID := 2, createdAt := 0, updatedAt := 0, metadata := ""
     campaignIDs := [], externalID := "b", externalServiceType := "github"
     externalBranch := "", externalDeletedAt := 0, externalUpdatedAt := 0
     externalState := "", externalReviewState := "", externalCheckState := "" }]

/-- Witness for the amended C4 on a two-row batch with an advanced clock. -/
theorem createChangesets_upsert_idempotent_witness :
    (CreateChangesets 5 ⟨[], 1⟩ c4Batch).existIDs = [] ∧
    (CreateChangesets 5 ⟨[], 1⟩ c4Batch).table.rows =
      (CreateChangesets 5 ⟨[], 1⟩ c4Batch).updated ∧
    (CreateChangesets 6 (CreateChangesets 5 ⟨[], 1⟩ c4Batch).table c4Batch).table =
      (CreateChangesets 5 ⟨[], 1⟩ c4Batch).table ∧
    (CreateChangesets 6 (CreateChangesets 5 ⟨[], 1⟩ c4Batch).table c4Batch).updated =
      (CreateChangesets 5 ⟨[], 1⟩ c4Batch).updated ∧
    (CreateChangesets 6 (CreateChangesets 5 ⟨[], 1⟩ c4Batch).table c4Batch).existIDs =
      (CreateChangesets 5 ⟨[], 1⟩ c4Batch).updated.map (fun r => r.id) :=
  createChangesets_upsert_idempotent 5 6 1 c4Batch (by decide) (by decide)
    (by decide)

end Campaigns
